import Mathlib

/-!
Shallow embedding of the chess core of the `chest` repository:
`src/core/chess_types.rs` (Color, PieceType, Piece, Address, Board) and
`src/core/game_engine.rs` (move offsets, move generation, move application).

Rust `u8` square coordinates carry the invariant `col < 8 ∧ row < 8`
(`Address::new` asserts it, and every address produced by parsing or by
`get_shifted` satisfies it), so `Address` is embedded with `Fin 8` fields.
Signed 8-bit shift offsets are embedded as `Int` (the offsets the engine
uses are all in `[-2, 2]`, far from `i8` overflow).  The 64-cell board
array is embedded as a `List (Option Piece)`; boards that correspond to a
Rust `Board` have `pieces.length = 64`, which theorems assume where the
array is written to.
-/

/-- `Color` from chess_types.rs. -/
inductive Color where
  | White
  | Black
deriving DecidableEq, Repr

/-- `PieceType` from chess_types.rs. -/
inductive PieceType where
  | Pawn
  | Knight
  | Bishop
  | Rook
  | Queen
  | King
deriving DecidableEq, Repr

/-- `Piece` from chess_types.rs: a (type, color) pair. -/
structure Piece where
  piece_type : PieceType
  color : Color
deriving DecidableEq, Repr

/-- `ROW_SIZE` from chess_types.rs. -/
def ROW_SIZE : Nat := 8

/-- `CELLS_COUNT` from chess_types.rs. -/
def CELLS_COUNT : Nat := ROW_SIZE * ROW_SIZE

/-- `Address` from chess_types.rs: `col`, `row` are `u8` with the
`Address::new` invariant `col < 8 ∧ row < 8`, embedded as `Fin 8`. -/
structure Address where
  col : Fin 8
  row : Fin 8
deriving DecidableEq, Repr

/-- `Address::get_row_name`. -/
def Address.get_row_name (row : Fin 8) : Char := Char.ofNat ('1'.toNat + row.val)

/-- `Address.get_col_name`. -/
def Address.get_col_name (col : Fin 8) : Char := Char.ofNat ('a'.toNat + col.val)

/-- `Address::get_color` from chess_types.rs: equal row/col parity gives
Black, unequal gives White. -/
def Address.get_color (a : Address) : Color :=
  let flip := a.row.val % 2
  let is_black := a.col.val % 2 = flip
  if is_black then Color.Black else Color.White

/-- `Address::get_shifted` from chess_types.rs: translate by the offset,
returning `none` when the result leaves `[0, 8)` on either axis. -/
def Address.get_shifted (a : Address) (offset : Int × Int) : Option Address :=
  let new_col : Int := (a.col.val : Int) + offset.1
  let new_row : Int := (a.row.val : Int) + offset.2
  if h : 0 ≤ new_row ∧ new_row < 8 ∧ 0 ≤ new_col ∧ new_col < 8 then
    some ⟨⟨new_col.toNat, by omega⟩, ⟨new_row.toNat, by omega⟩⟩
  else
    none

/-- `ParseAddressError` from chess_types.rs. -/
structure ParseAddressError
deriving DecidableEq, Repr

/-- Rust `char::to_ascii_lowercase`: maps `A..Z` down by 32, leaves every
other character alone (comparisons are on code points). -/
def to_ascii_lowercase (c : Char) : Char :=
  if 'A'.toNat ≤ c.toNat ∧ c.toNat ≤ 'Z'.toNat then Char.ofNat (c.toNat + 32) else c

/-- `Address::from_str` from chess_types.rs.  The Rust code collects the
chars, rejects length ≠ 2 and then indexes positions 0 and 1; here that is
rendered as a two-element list match.  The range patterns `'a'..='h'` and
`'1'..='8'` compare code points, rendered via `Char.toNat`. -/
def Address.from_str (s : String) : Except ParseAddressError Address :=
  match s.data with
  | [c0, c1] =>
    let col := to_ascii_lowercase c0
    let row := to_ascii_lowercase c1
    if hc : 'a'.toNat ≤ col.toNat ∧ col.toNat ≤ 'h'.toNat then
      if hr : '1'.toNat ≤ row.toNat ∧ row.toNat ≤ '8'.toNat then
        Except.ok
          ⟨⟨col.toNat - 'a'.toNat, by
              have ha : 'a'.toNat = 97 := rfl
              have hh : 'h'.toNat = 104 := rfl
              have h1 := hc.1
              have h2 := hc.2
              omega⟩,
            ⟨row.toNat - '1'.toNat, by
              have h1 : '1'.toNat = 49 := rfl
              have h8 : '8'.toNat = 56 := rfl
              have hlo := hr.1
              have hhi := hr.2
              omega⟩⟩
      else
        Except.error ParseAddressError.mk
    else
      Except.error ParseAddressError.mk
  | _ => Except.error ParseAddressError.mk

/-- `Display for Address` from chess_types.rs: column letter then row
digit. -/
def Address.toText (a : Address) : String :=
  String.mk [Address.get_col_name a.col, Address.get_row_name a.row]

/-- `Board` from chess_types.rs. -/
structure Board where
  pieces : List (Option Piece)
  whose_turn : Color
  flip_board : Bool
  white_graveyard : List Piece
  black_graveyard : List Piece
deriving DecidableEq, Repr

/-- `Board::default` / `Board::new_empty`: all-`None` occupancy, White to
move, empty graveyards. -/
def Board.new_empty : Board :=
  { pieces := List.replicate 64 none
    whose_turn := Color.White
    flip_board := false
    white_graveyard := []
    black_graveyard := [] }

/-- `Board::new` from chess_types.rs: the standard starting layout,
index = row * 8 + col, row 0 = White's back rank. -/
def Board.new : Board :=
  let w := fun t => some (Piece.mk t Color.White)
  let b := fun t => some (Piece.mk t Color.Black)
  { pieces :=
      [w .Rook, w .Knight, w .Bishop, w .Queen, w .King, w .Bishop, w .Knight, w .Rook,
       w .Pawn, w .Pawn, w .Pawn, w .Pawn, w .Pawn, w .Pawn, w .Pawn, w .Pawn,
       none, none, none, none, none, none, none, none,
       none, none, none, none, none, none, none, none,
       none, none, none, none, none, none, none, none,
       none, none, none, none, none, none, none, none,
       b .Pawn, b .Pawn, b .Pawn, b .Pawn, b .Pawn, b .Pawn, b .Pawn, b .Pawn,
       b .Rook, b .Knight, b .Bishop, b .Queen, b .King, b .Bishop, b .Knight, b .Rook]
    whose_turn := Color.White
    flip_board := false
    white_graveyard := []
    black_graveyard := [] }

/-- `Board::get_index` from chess_types.rs: `row * 8 + col`. -/
def Board.get_index (address : Address) : Nat :=
  address.row.val * ROW_SIZE + address.col.val

/-- `Board::get_cell`: occupancy lookup at the linear index. -/
def Board.get_cell (b : Board) (address : Address) : Option Piece :=
  b.pieces.getD (Board.get_index address) none

/-- `Board::flip_player`: toggle `whose_turn`. -/
def Board.flip_player (b : Board) : Board :=
  { b with
    whose_turn := if b.whose_turn = Color.White then Color.Black else Color.White }

/-- `Board::kill_piece` from chess_types.rs: if the square is occupied,
push the piece onto the graveyard of the piece's own color and clear the
square; no-op when the square is empty. -/
def Board.kill_piece (b : Board) (address : Address) : Board :=
  match b.get_cell address with
  | some piece =>
    if piece.color = Color.White then
      { b with
        white_graveyard := b.white_graveyard ++ [piece]
        pieces := b.pieces.set (Board.get_index address) none }
    else
      { b with
        black_graveyard := b.black_graveyard ++ [piece]
        pieces := b.pieces.set (Board.get_index address) none }
  | none => b

/-- `Board::move_piece` from chess_types.rs: first kill whatever occupies
the destination `dst`, then copy the piece from `frm` to `dst` and clear
`frm`. -/
def Board.move_piece (b : Board) (frm dst : Address) : Board :=
  let b1 := b.kill_piece dst
  { b1 with
    pieces :=
      (b1.pieces.set (Board.get_index dst) (b1.pieces.getD (Board.get_index frm) none)).set
        (Board.get_index frm) none }

/-! ### game_engine.rs: move offsets and move generation -/

/-- `PAWN_MARCH_OFFSET` from game_engine.rs. -/
def PAWN_MARCH_OFFSET : List (Int × Int) := [(0, 1)]

/-- `PAWN_LONG_MARCH_OFFSET` from game_engine.rs. -/
def PAWN_LONG_MARCH_OFFSET : List (Int × Int) := [(0, 2)]

/-- `PAWN_CAPTURE_OFFSETS` from game_engine.rs. -/
def PAWN_CAPTURE_OFFSETS : List (Int × Int) := [(-1, 1), (1, 1)]

/-- `KNIGHT_MOVE_OFFSETS` from game_engine.rs. -/
def KNIGHT_MOVE_OFFSETS : List (Int × Int) :=
  [(-1, 2), (1, 2), (2, 1), (2, -1), (1, -2), (-1, -2), (-2, -1), (-2, 1)]

/-- `BISHOP_MOVE_OFFSETS` from game_engine.rs: the 4 diagonals. -/
def BISHOP_MOVE_OFFSETS : List (Int × Int) := [(-1, -1), (-1, 1), (1, -1), (1, 1)]

/-- `ROOK_MOVE_OFFSETS` from game_engine.rs: the 4 orthogonals. -/
def ROOK_MOVE_OFFSETS : List (Int × Int) := [(-1, 0), (0, 1), (1, 0), (0, -1)]

/-- `KING_QUEEN_MOVE_OFFSETS` from game_engine.rs: all 8 directions. -/
def KING_QUEEN_MOVE_OFFSETS : List (Int × Int) :=
  [(-1, 0), (0, 1), (1, 0), (0, -1), (-1, -1), (-1, 1), (1, -1), (1, 1)]

/-- `MoveError` from game_engine.rs.  `WrongColorTurn` carries the color
whose turn it is; `UnreachableMove` carries the endpoints. -/
inductive MoveError where
  | InvalidAddress : ParseAddressError → MoveError
  | NoPiece
  | WrongColorTurn : Color → MoveError
  | UnreachableMove : Address → Address → MoveError
deriving DecidableEq, Repr

/-- The `rotate_by_color` closure in `get_pawn_moves`: offsets are stated
for White; for Black both components are negated. -/
def rotate_by_color (color : Color) (offset : Int × Int) : Int × Int :=
  if color = Color.White then offset else (-offset.1, -offset.2)

/-- The `is_initial_row` test in `get_pawn_moves`: zero-indexed row 1 for
White, row 6 for Black. -/
def pawn_is_initial_row (color : Color) (address : Address) : Prop :=
  (color = Color.White ∧ address.row.val = 1) ∨
    (color = Color.Black ∧ address.row.val = 6)

instance (color : Color) (address : Address) :
    Decidable (pawn_is_initial_row color address) := by
  unfold pawn_is_initial_row
  infer_instance

/-- `get_pawn_moves` from game_engine.rs: long march (only from the
initial row, destination must be empty — the intermediate square is not
consulted), then single march (destination empty), then the two diagonal
captures (destination holds an enemy piece).  The Rust function pushes
into `out` in exactly this order. -/
def get_pawn_moves (board : Board) (address : Address) (color : Color) :
    List Address :=
  let long_part :=
    if pawn_is_initial_row color address then
      match address.get_shifted (rotate_by_color color (PAWN_LONG_MARCH_OFFSET.getD 0 (0, 0))) with
      | some move_address =>
        match board.get_cell move_address with
        | none => [move_address]
        | some _ => []
      | none => []
    else []
  let march_part :=
    match address.get_shifted (rotate_by_color color (PAWN_MARCH_OFFSET.getD 0 (0, 0))) with
    | some move_address =>
      match board.get_cell move_address with
      | none => [move_address]
      | some _ => []
    | none => []
  let capture_part :=
    PAWN_CAPTURE_OFFSETS.flatMap fun capture_offset =>
      match address.get_shifted (rotate_by_color color capture_offset) with
      | some move_address =>
        match board.get_cell move_address with
        | some piece => if piece.color ≠ color then [move_address] else []
        | none => []
      | none => []
  long_part ++ march_part ++ capture_part

/-- `get_scalar_piece_moves` from game_engine.rs: one shifted square per
offset; skip off-board, skip own color, include empty or enemy. -/
def get_scalar_piece_moves (scalar_offsets : List (Int × Int)) (board : Board)
    (address : Address) (color : Color) : List Address :=
  scalar_offsets.flatMap fun offset =>
    match address.get_shifted offset with
    | some move_address =>
      match board.get_cell move_address with
      | some piece => if piece.color ≠ color then [move_address] else []
      | none => [move_address]
    | none => []

/-- The `while let` ray walk inside `get_vector_piece_moves`, with a fuel
parameter for structural recursion.  Every offset the engine passes is
nonzero, so a walk makes at most 7 steps before leaving the board; the
engine is instantiated with fuel 8, which is therefore never exhausted
(`iterShift_le_seven` and `ray_mem_iff` below make this exact). -/
def rayAux (board : Board) (color : Color) (offset : Int × Int) :
    Nat → Option Address → List Address
  | 0, _ => []
  | _ + 1, none => []
  | fuel + 1, some move_address =>
    match board.get_cell move_address with
    | some piece => if piece.color ≠ color then [move_address] else []
    | none => move_address :: rayAux board color offset fuel (move_address.get_shifted offset)

/-- `get_vector_piece_moves` from game_engine.rs: for each direction, walk
the ray until off-board (stop), own piece (stop), enemy piece (include
then stop), or empty (include then continue). -/
def get_vector_piece_moves (vector_offsets : List (Int × Int)) (board : Board)
    (address : Address) (color : Color) : List Address :=
  vector_offsets.flatMap fun offset =>
    rayAux board color offset 8 (address.get_shifted offset)

/-- `get_knight_moves` from game_engine.rs. -/
def get_knight_moves (board : Board) (address : Address) (color : Color) : List Address :=
  get_scalar_piece_moves KNIGHT_MOVE_OFFSETS board address color

/-- `get_bishop_moves` from game_engine.rs. -/
def get_bishop_moves (board : Board) (address : Address) (color : Color) : List Address :=
  get_vector_piece_moves BISHOP_MOVE_OFFSETS board address color

/-- `get_rook_moves` from game_engine.rs. -/
def get_rook_moves (board : Board) (address : Address) (color : Color) : List Address :=
  get_vector_piece_moves ROOK_MOVE_OFFSETS board address color

/-- `get_queen_moves` from game_engine.rs. -/
def get_queen_moves (board : Board) (address : Address) (color : Color) : List Address :=
  get_vector_piece_moves KING_QUEEN_MOVE_OFFSETS board address color

/-- `get_king_moves` from game_engine.rs. -/
def get_king_moves (board : Board) (address : Address) (color : Color) : List Address :=
  get_scalar_piece_moves KING_QUEEN_MOVE_OFFSETS board address color

/-- `get_piece_moves` from game_engine.rs: `NoPiece` on an empty square,
otherwise dispatch on the occupying piece's type with its recorded
color. -/
def get_piece_moves (board : Board) (address : Address) :
    Except MoveError (List Address) :=
  match board.get_cell address with
  | none => Except.error MoveError.NoPiece
  | some piece =>
    Except.ok
      (match piece.piece_type with
        | PieceType.Pawn => get_pawn_moves board address piece.color
        | PieceType.Knight => get_knight_moves board address piece.color
        | PieceType.Bishop => get_bishop_moves board address piece.color
        | PieceType.Rook => get_rook_moves board address piece.color
        | PieceType.Queen => get_queen_moves board address piece.color
        | PieceType.King => get_king_moves board address piece.color)

/-- `make_move` from game_engine.rs.  Note the wrong-turn guard returns
`MoveError::NoPiece` (not `WrongColorTurn`) exactly as the Rust source
does.  The Rust function mutates `board` in place; here it returns the
updated board together with the optional error. -/
def make_move (board : Board) (frm dst : Address) : Board × Option MoveError :=
  let wrong_turn : Bool :=
    match board.get_cell frm with
    | some piece => piece.color != board.whose_turn
    | none => false
  if wrong_turn then
    (board, some MoveError.NoPiece)
  else
    match get_piece_moves board frm with
    | Except.error e => (board, some e)
    | Except.ok possible_moves =>
      if dst ∈ possible_moves then
        ((board.move_piece frm dst).flip_player, none)
      else
        (board, some (MoveError.UnreachableMove frm dst))

instance : Inhabited (String × String) := ⟨("", "")⟩

/-- `make_moves` from game_engine.rs: parse and apply each pair in order,
stopping at the first parse error or move error. -/
def make_moves (board : Board) : List (String × String) → Board × Option MoveError
  | [] => (board, none)
  | m :: rest =>
    match Address.from_str m.1 with
    | Except.error e => (board, some (MoveError.InvalidAddress e))
    | Except.ok frm =>
      match Address.from_str m.2 with
      | Except.error e => (board, some (MoveError.InvalidAddress e))
      | Except.ok dst =>
        match make_move board frm dst with
        | (board2, some e) => (board2, some e)
        | (board2, none) => make_moves board2 rest

/-! ### Helper lemmas -/

lemma list_getD_set_self {α : Type} (l : List α) (i : Nat) (v d : α)
    (h : i < l.length) : (l.set i v).getD i d = v := by
  simp [List.getD, List.getElem?_set_self', List.getElem?_eq_getElem, h]

lemma list_getD_set_ne {α : Type} (l : List α) (i j : Nat) (v d : α)
    (h : i ≠ j) : (l.set i v).getD j d = l.getD j d := by
  simp [List.getD, List.getElem?_set_ne h]

lemma get_index_inj {a b : Address} (h : Board.get_index a = Board.get_index b) :
    a = b := by
  obtain ⟨⟨ac, hac⟩, ⟨ar, har⟩⟩ := a
  obtain ⟨⟨bc, hbc⟩, ⟨br, hbr⟩⟩ := b
  simp only [Board.get_index, ROW_SIZE] at h
  simp only [Address.mk.injEq, Fin.mk.injEq]
  omega

lemma get_index_lt (a : Address) : Board.get_index a < 64 := by
  obtain ⟨⟨ac, hac⟩, ⟨ar, har⟩⟩ := a
  simp only [Board.get_index, ROW_SIZE]
  omega

/-- Coordinate characterization of a successful shift: the translated
coordinates are exact, and success is equivalent to the target having
exactly the translated coordinates. -/
lemma get_shifted_some_iff (a m : Address) (off : Int × Int) :
    a.get_shifted off = some m ↔
      ((m.col.val : Int) = (a.col.val : Int) + off.1 ∧
        (m.row.val : Int) = (a.row.val : Int) + off.2) := by
  unfold Address.get_shifted
  dsimp only
  split
  · next hb =>
    simp only [Option.some.injEq]
    obtain ⟨⟨mc, hmc⟩, ⟨mr, hmr⟩⟩ := m
    simp only [Address.mk.injEq, Fin.mk.injEq]
    constructor
    · rintro ⟨h1, h2⟩
      simp only [← h1, ← h2]
      omega
    · rintro ⟨h1, h2⟩
      omega
  · next hb =>
    constructor
    · intro h
      cases h
    · rintro ⟨h1, h2⟩
      exfalso
      have hc := m.col.isLt
      have hr := m.row.isLt
      omega

lemma get_shifted_none_iff (a : Address) (off : Int × Int) :
    a.get_shifted off = none ↔
      ((a.col.val : Int) + off.1 < 0 ∨ 8 ≤ (a.col.val : Int) + off.1 ∨
        (a.row.val : Int) + off.2 < 0 ∨ 8 ≤ (a.row.val : Int) + off.2) := by
  unfold Address.get_shifted
  dsimp only
  split
  · next hb =>
    constructor
    · intro h
      cases h
    · intro h
      exfalso
      omega
  · next hb =>
    constructor
    · intro h
      omega
    · intro h
      rfl

/-- Any error branch of `make_move` leaves the board untouched (the Rust
code only mutates after all checks pass). -/
lemma make_move_cases (b : Board) (frm dst : Address) :
    (make_move b frm dst).2 = none ∨ (make_move b frm dst).1 = b := by
  unfold make_move
  dsimp only
  split
  · right; rfl
  · split
    · right; rfl
    · split
      · left; rfl
      · right; rfl

/-! ### Claim theorems -/

/-- C7: shifting a square by `(f, r)` and then by `(-f, -r)` returns the
original square whenever the first shift stays on the board, and a shift
returns `none` exactly when the translated coordinate leaves `[0, 8)` on
either axis. -/
theorem get_shifted_roundtrip_and_none :
    (∀ (a m : Address) (f r : Int),
        a.get_shifted (f, r) = some m → m.get_shifted (-f, -r) = some a) ∧
    (∀ (a : Address) (f r : Int),
        a.get_shifted (f, r) = none ↔
          ((a.col.val : Int) + f < 0 ∨ 8 ≤ (a.col.val : Int) + f ∨
            (a.row.val : Int) + r < 0 ∨ 8 ≤ (a.row.val : Int) + r)) := by
  constructor
  · intro a m f r h
    rw [get_shifted_some_iff] at h
    rw [get_shifted_some_iff]
    obtain ⟨h1, h2⟩ := h
    constructor <;> omega
  · intro a f r
    exact get_shifted_none_iff a (f, r)

/-- Witness for C7: from e4, shifting by (1, 1) reaches f5 and shifting f5
by (-1, -1) returns e4; from a1, shifting by (-1, 0) leaves the board. -/
theorem get_shifted_roundtrip_witness :
    (⟨5, 4⟩ : Address).get_shifted (-1, -1) = some ⟨4, 3⟩ ∧
    ((⟨0, 0⟩ : Address).get_shifted (-1, 0) = none ↔
      ((0 : Int) + (-1) < 0 ∨ 8 ≤ (0 : Int) + (-1) ∨
        (0 : Int) + 0 < 0 ∨ 8 ≤ (0 : Int) + 0)) :=
  ⟨get_shifted_roundtrip_and_none.1 ⟨4, 3⟩ ⟨5, 4⟩ 1 1 (by decide),
    get_shifted_roundtrip_and_none.2 ⟨0, 0⟩ (-1) 0⟩

/-- C5 counterexample: the claim says equal rank/file parity yields the
light color (White), but at a1 (col 0, row 0, equal parity) `get_color`
returns Black. -/
theorem get_color_c5_counterexample :
    (⟨0, 0⟩ : Address).row.val % 2 = (⟨0, 0⟩ : Address).col.val % 2 ∧
    (⟨0, 0⟩ : Address).get_color = Color.Black ∧ Color.Black ≠ Color.White := by
  decide

/-- C5 (amended): `get_color` returns the dark color (Black) exactly when
the rank's parity equals the file's parity, and the light color (White)
exactly when the parities differ. -/
theorem get_color_parity (a : Address) :
    (a.get_color = Color.Black ↔ a.row.val % 2 = a.col.val % 2) ∧
    (a.get_color = Color.White ↔ ¬ a.row.val % 2 = a.col.val % 2) := by
  obtain ⟨⟨c, hc⟩, ⟨r, hr⟩⟩ := a
  unfold Address.get_color
  dsimp only
  by_cases h : c % 2 = r % 2
  · simp [h, eq_comm]
  · have h2 : ¬ r % 2 = c % 2 := fun hx => h hx.symm
    simp [h, h2]

/-- C1: the code bug.  On the starting board (White to move) the Black
pawn on e7 is selected; `make_move` returns `NoPiece` instead of the
documented `WrongColorTurn` carrying White, even though the source square
is occupied.  The unused `MoveError::WrongColorTurn` variant in the source
marks the intended behavior. -/
theorem make_move_wrong_side_bug :
    Board.new.whose_turn = Color.White ∧
    Board.new.get_cell ⟨4, 6⟩ = some (Piece.mk PieceType.Pawn Color.Black) ∧
    (make_move Board.new ⟨4, 6⟩ ⟨4, 4⟩).2 = some MoveError.NoPiece ∧
    (make_move Board.new ⟨4, 6⟩ ⟨4, 4⟩).2 ≠ some (MoveError.WrongColorTurn Color.White) := by
  decide

/-- C10: whenever `make_move` returns an error of any variant, the board
is exactly as it was before the call. -/
theorem make_move_error_preserves_board (b : Board) (frm dst : Address)
    (e : MoveError) (h : (make_move b frm dst).2 = some e) :
    (make_move b frm dst).1 = b := by
  rcases make_move_cases b frm dst with h2 | h2
  · rw [h] at h2
    cases h2
  · exact h2

/-- Witness for C10: moving from the empty square e4 on the starting board
fails and leaves the board unchanged. -/
theorem make_move_error_preserves_board_witness :
    (make_move Board.new ⟨4, 3⟩ ⟨4, 4⟩).2 = some MoveError.NoPiece ∧
    (make_move Board.new ⟨4, 3⟩ ⟨4, 4⟩).1 = Board.new :=
  ⟨by decide,
    make_move_error_preserves_board Board.new ⟨4, 3⟩ ⟨4, 4⟩ MoveError.NoPiece (by decide)⟩

/-! ### C6: parsing -/

deriving instance DecidableEq for Except

lemma char_toNat_ofNat (n : Nat) (h : n < 55296) : (Char.ofNat n).toNat = n := by
  simp [Char.ofNat, Char.toNat, Nat.isValidChar, h, Char.ofNatAux, UInt32.toNat, BitVec.ofNatLt]

lemma to_ascii_lowercase_toNat (c : Char) :
    (to_ascii_lowercase c).toNat =
      if 'A'.toNat ≤ c.toNat ∧ c.toNat ≤ 'Z'.toNat then c.toNat + 32 else c.toNat := by
  unfold to_ascii_lowercase
  split
  · next h =>
    have hz : 'Z'.toNat = 90 := rfl
    exact char_toNat_ofNat _ (by omega)
  · next h =>
    rfl

/-- The shape the spec says `parse` accepts: exactly a file letter
`'a'..'h'` (case-insensitive) followed by a rank digit `'1'..'8'`
(compared by code point). -/
def valid_square_text (s : String) : Prop :=
  ∃ c d, s.data = [c, d] ∧
    (('a'.toNat ≤ c.toNat ∧ c.toNat ≤ 'h'.toNat) ∨
      ('A'.toNat ≤ c.toNat ∧ c.toNat ≤ 'H'.toNat)) ∧
    ('1'.toNat ≤ d.toNat ∧ d.toNat ≤ '8'.toNat)

/-- C6: printing any square and parsing it back yields the square, and
parsing returns the invalid-address error for every string that is not a
file letter `'a'..'h'` (case-insensitive) followed by a rank digit
`'1'..'8'` — in particular for any length other than 2. -/
theorem from_str_toText_roundtrip_and_rejects :
    (∀ a : Address, Address.from_str a.toText = Except.ok a) ∧
    (∀ s : String, ¬ valid_square_text s →
      Address.from_str s = Except.error ParseAddressError.mk) := by
  constructor
  · intro a
    obtain ⟨c, r⟩ := a
    revert c r
    decide
  · intro s hns
    unfold Address.from_str
    rcases hd : s.data with _ | ⟨c0, tl⟩
    · rfl
    · rcases tl with _ | ⟨c1, tl2⟩
      · rfl
      · rcases tl2 with _ | ⟨c2, tl3⟩
        · dsimp only
          split
          · next hc =>
            split
            · next hr =>
              exfalso
              apply hns
              refine ⟨c0, c1, hd, ?_, ?_⟩
              · have h65 : 'A'.toNat = 65 := rfl
                have h90 : 'Z'.toNat = 90 := rfl
                have h97 : 'a'.toNat = 97 := rfl
                have h104 : 'h'.toNat = 104 := rfl
                have h72 : 'H'.toNat = 72 := rfl
                rw [to_ascii_lowercase_toNat] at hc
                split at hc
                · next hu => right; omega
                · next hu => left; omega
              · have h65 : 'A'.toNat = 65 := rfl
                have h90 : 'Z'.toNat = 90 := rfl
                have h49 : '1'.toNat = 49 := rfl
                have h56 : '8'.toNat = 56 := rfl
                rw [to_ascii_lowercase_toNat] at hr
                split at hr
                · next hu => exfalso; omega
                · next hu => omega
            · next hr => rfl
          · next hc => rfl
        · rfl

/-- Witness for C6: e4 round-trips, and the out-of-range text "j5" is
rejected. -/
theorem from_str_toText_witness :
    Address.from_str (Address.toText ⟨4, 3⟩) = Except.ok ⟨4, 3⟩ ∧
    Address.from_str "j5" = Except.error ParseAddressError.mk :=
  ⟨from_str_toText_roundtrip_and_rejects.1 ⟨4, 3⟩,
    from_str_toText_roundtrip_and_rejects.2 "j5"
      (by
        rintro ⟨c, d, hdata, hc, hd2⟩
        have h2 : ['j', '5'] = [c, d] := hdata
        injection h2 with e1 e2
        injection e2 with e2 e3
        subst e1
        revert hc
        decide)⟩

/-! ### C9: move generation reads only the occupancy grid -/

lemma get_cell_congr {b1 b2 : Board} (h : b1.pieces = b2.pieces) (x : Address) :
    b1.get_cell x = b2.get_cell x := by
  unfold Board.get_cell
  rw [h]

lemma rayAux_congr {b1 b2 : Board} (h : b1.pieces = b2.pieces) (c : Color)
    (off : Int × Int) : ∀ (fuel : Nat) (o : Option Address),
    rayAux b1 c off fuel o = rayAux b2 c off fuel o := by
  intro fuel
  induction fuel with
  | zero => intro o; rfl
  | succ n ih =>
    intro o
    cases o with
    | none => rfl
    | some m =>
      show rayAux b1 c off (n + 1) (some m) = rayAux b2 c off (n + 1) (some m)
      unfold rayAux
      rw [get_cell_congr h]
      rcases hc : b2.get_cell m with _ | p
      · simp only [ih]
      · rfl

lemma get_scalar_piece_moves_congr {b1 b2 : Board} (h : b1.pieces = b2.pieces)
    (offs : List (Int × Int)) (a : Address) (c : Color) :
    get_scalar_piece_moves offs b1 a c = get_scalar_piece_moves offs b2 a c := by
  unfold get_scalar_piece_moves
  congr 1
  funext off
  rcases hsh : a.get_shifted off with _ | m
  · rfl
  · simp only [get_cell_congr h]

lemma get_vector_piece_moves_congr {b1 b2 : Board} (h : b1.pieces = b2.pieces)
    (offs : List (Int × Int)) (a : Address) (c : Color) :
    get_vector_piece_moves offs b1 a c = get_vector_piece_moves offs b2 a c := by
  unfold get_vector_piece_moves
  congr 1
  funext off
  exact rayAux_congr h c off 8 (a.get_shifted off)

lemma get_pawn_moves_congr {b1 b2 : Board} (h : b1.pieces = b2.pieces)
    (a : Address) (c : Color) :
    get_pawn_moves b1 a c = get_pawn_moves b2 a c := by
  unfold get_pawn_moves
  dsimp only
  congr 1
  · congr 1
    · split
      · rcases hsh : a.get_shifted (rotate_by_color c (PAWN_LONG_MARCH_OFFSET.getD 0 (0, 0))) with _ | m
        · simp only [hsh]
        · simp only [hsh, get_cell_congr h]
      · rfl
    · rcases hsh : a.get_shifted (rotate_by_color c (PAWN_MARCH_OFFSET.getD 0 (0, 0))) with _ | m
      · simp only [hsh]
      · simp only [hsh, get_cell_congr h]
  · congr 1
    funext off
    rcases hsh : a.get_shifted (rotate_by_color c off) with _ | m
    · simp only [hsh]
    · simp only [hsh, get_cell_congr h]

/-- C9: the move generator is a pure function of the occupancy grid and
the queried square: two boards with identical `pieces` (any `whose_turn`,
`flip_board` or graveyards) give identical generated move lists for every
square.  (The embedding of `get_piece_moves` is a pure function of the
board, mirroring the `&Board` argument of the Rust generator, so
generation cannot modify `whose_turn` or any other board state.) -/
theorem get_piece_moves_depends_only_on_pieces (b1 b2 : Board) (a : Address)
    (h : b1.pieces = b2.pieces) :
    get_piece_moves b1 a = get_piece_moves b2 a := by
  unfold get_piece_moves
  rw [get_cell_congr h]
  rcases hc : b2.get_cell a with _ | p
  · rfl
  · rcases p with ⟨t, pc⟩
    rcases t
    · simp only [get_pawn_moves_congr h]
    · simp only [get_knight_moves, get_scalar_piece_moves_congr h]
    · simp only [get_bishop_moves, get_vector_piece_moves_congr h]
    · simp only [get_rook_moves, get_vector_piece_moves_congr h]
    · simp only [get_queen_moves, get_vector_piece_moves_congr h]
    · simp only [get_king_moves, get_scalar_piece_moves_congr h]

/-- Witness for C9: the starting board with White to move and the same
occupancy with Black to move and a nonempty graveyard generate the same
moves for the e2 pawn. -/
theorem get_piece_moves_depends_only_on_pieces_witness :
    get_piece_moves Board.new ⟨4, 1⟩ =
      get_piece_moves
        { Board.new with
          whose_turn := Color.Black
          flip_board := true
          white_graveyard := [Piece.mk PieceType.Pawn Color.White] } ⟨4, 1⟩ :=
  get_piece_moves_depends_only_on_pieces _ _ ⟨4, 1⟩ rfl

/-! ### C3: pawn double step -/

lemma mem_pawn_quiet_part (b : Board) (m : Address) (o : Option Address) :
    (m ∈ match o with
      | some move_address =>
        (match b.get_cell move_address with
          | none => [move_address]
          | some _ => ([] : List Address))
      | none => []) ↔ (o = some m ∧ b.get_cell m = none) := by
  rcases o with _ | x
  · simp
  · simp only [Option.some.injEq]
    rcases hc : b.get_cell x with _ | p
    · simp only [hc, List.mem_singleton]
      constructor
      · rintro rfl
        exact ⟨rfl, hc⟩
      · rintro ⟨rfl, _⟩
        rfl
    · simp only [hc]
      constructor
      · intro hmem
        exact absurd hmem (List.not_mem_nil m)
      · rintro ⟨rfl, hnone⟩
        rw [hnone] at hc
        cases hc

lemma mem_pawn_capture_part (b : Board) (c : Color) (m : Address) (o : Option Address) :
    (m ∈ match o with
      | some move_address =>
        (match b.get_cell move_address with
          | some piece => if piece.color ≠ c then [move_address] else []
          | none => ([] : List Address))
      | none => []) ↔
      (o = some m ∧ ∃ p, b.get_cell m = some p ∧ p.color ≠ c) := by
  rcases o with _ | x
  · simp
  · simp only [Option.some.injEq]
    rcases hc : b.get_cell x with _ | p
    · simp only [hc]
      constructor
      · intro hmem
        exact absurd hmem (List.not_mem_nil m)
      · rintro ⟨rfl, q, hq, _⟩
        rw [hq] at hc
        cases hc
    · simp only [hc]
      by_cases hpc : p.color ≠ c
      · rw [if_pos hpc]
        simp only [List.mem_singleton]
        constructor
        · rintro rfl
          exact ⟨rfl, p, hc, hpc⟩
        · rintro ⟨rfl, _⟩
          rfl
      · rw [if_neg hpc]
        constructor
        · intro hmem
          exact absurd hmem (List.not_mem_nil m)
        · rintro ⟨rfl, q, hq, hqc⟩
          rw [hq] at hc
          injection hc with hc2
          subst hc2
          exact absurd hqc hpc

/-- C3: the pawn double-step destination is generated iff the pawn stands
on its side's starting rank (row 1 for White, row 6 for Black) and the
destination square is empty — for any board, so in particular the
intermediate square is never consulted; off the starting rank the
double-step destination is never generated. -/
theorem get_pawn_moves_double_step (b : Board) (a : Address) (c : Color) (m : Address)
    (h : a.get_shifted (rotate_by_color c (PAWN_LONG_MARCH_OFFSET.getD 0 (0, 0))) = some m) :
    m ∈ get_pawn_moves b a c ↔ (pawn_is_initial_row c a ∧ b.get_cell m = none) := by
  cases c
  case White =>
    have h2 : a.get_shifted ((0 : Int), (2 : Int)) = some m := h
    obtain ⟨hmc, hmr⟩ := (get_shifted_some_iff a m (0, 2)).mp h2
    unfold get_pawn_moves
    dsimp only
    have e1 : rotate_by_color Color.White (PAWN_LONG_MARCH_OFFSET.getD 0 (0, 0)) =
        ((0 : Int), (2 : Int)) := rfl
    have e2 : rotate_by_color Color.White (PAWN_MARCH_OFFSET.getD 0 (0, 0)) =
        ((0 : Int), (1 : Int)) := rfl
    have e3 : rotate_by_color Color.White ((-1 : Int), (1 : Int)) = ((-1 : Int), (1 : Int)) := rfl
    have e4 : rotate_by_color Color.White ((1 : Int), (1 : Int)) = ((1 : Int), (1 : Int)) := rfl
    simp only [PAWN_CAPTURE_OFFSETS, List.flatMap_cons, List.flatMap_nil, List.append_nil]
    rw [e1, e2, e3, e4]
    simp only [List.mem_append]
    by_cases hini : pawn_is_initial_row Color.White a
    · rw [if_pos hini]
      rw [mem_pawn_quiet_part, mem_pawn_quiet_part, mem_pawn_capture_part, mem_pawn_capture_part]
      constructor
      · rintro ((⟨hs, he⟩ | ⟨hs, he⟩) | ⟨hs, _⟩ | ⟨hs, _⟩)
        · exact ⟨hini, he⟩
        · obtain ⟨hc1, hr1⟩ := (get_shifted_some_iff a m (0, 1)).mp hs
          omega
        · obtain ⟨hc1, hr1⟩ := (get_shifted_some_iff a m (-1, 1)).mp hs
          omega
        · obtain ⟨hc1, hr1⟩ := (get_shifted_some_iff a m (1, 1)).mp hs
          omega
      · rintro ⟨_, he⟩
        exact Or.inl (Or.inl ⟨h2, he⟩)
    · rw [if_neg hini]
      rw [mem_pawn_quiet_part, mem_pawn_capture_part, mem_pawn_capture_part]
      constructor
      · rintro ((hnil | ⟨hs, he⟩) | ⟨hs, _⟩ | ⟨hs, _⟩)
        · exact absurd hnil (List.not_mem_nil m)
        · obtain ⟨hc1, hr1⟩ := (get_shifted_some_iff a m (0, 1)).mp hs
          omega
        · obtain ⟨hc1, hr1⟩ := (get_shifted_some_iff a m (-1, 1)).mp hs
          omega
        · obtain ⟨hc1, hr1⟩ := (get_shifted_some_iff a m (1, 1)).mp hs
          omega
      · rintro ⟨hinif, _⟩
        exact absurd hinif hini
  case Black =>
    have h2 : a.get_shifted ((0 : Int), (-2 : Int)) = some m := h
    obtain ⟨hmc, hmr⟩ := (get_shifted_some_iff a m (0, -2)).mp h2
    unfold get_pawn_moves
    dsimp only
    have e1 : rotate_by_color Color.Black (PAWN_LONG_MARCH_OFFSET.getD 0 (0, 0)) =
        ((0 : Int), (-2 : Int)) := rfl
    have e2 : rotate_by_color Color.Black (PAWN_MARCH_OFFSET.getD 0 (0, 0)) =
        ((0 : Int), (-1 : Int)) := rfl
    have e3 : rotate_by_color Color.Black ((-1 : Int), (1 : Int)) = ((1 : Int), (-1 : Int)) := rfl
    have e4 : rotate_by_color Color.Black ((1 : Int), (1 : Int)) = ((-1 : Int), (-1 : Int)) := rfl
    simp only [PAWN_CAPTURE_OFFSETS, List.flatMap_cons, List.flatMap_nil, List.append_nil]
    rw [e1, e2, e3, e4]
    simp only [List.mem_append]
    by_cases hini : pawn_is_initial_row Color.Black a
    · rw [if_pos hini]
      rw [mem_pawn_quiet_part, mem_pawn_quiet_part, mem_pawn_capture_part, mem_pawn_capture_part]
      constructor
      · rintro ((⟨hs, he⟩ | ⟨hs, he⟩) | ⟨hs, _⟩ | ⟨hs, _⟩)
        · exact ⟨hini, he⟩
        · obtain ⟨hc1, hr1⟩ := (get_shifted_some_iff a m (0, -1)).mp hs
          omega
        · obtain ⟨hc1, hr1⟩ := (get_shifted_some_iff a m (1, -1)).mp hs
          omega
        · obtain ⟨hc1, hr1⟩ := (get_shifted_some_iff a m (-1, -1)).mp hs
          omega
      · rintro ⟨_, he⟩
        exact Or.inl (Or.inl ⟨h2, he⟩)
    · rw [if_neg hini]
      rw [mem_pawn_quiet_part, mem_pawn_capture_part, mem_pawn_capture_part]
      constructor
      · rintro ((hnil | ⟨hs, he⟩) | ⟨hs, _⟩ | ⟨hs, _⟩)
        · exact absurd hnil (List.not_mem_nil m)
        · obtain ⟨hc1, hr1⟩ := (get_shifted_some_iff a m (0, -1)).mp hs
          omega
        · obtain ⟨hc1, hr1⟩ := (get_shifted_some_iff a m (1, -1)).mp hs
          omega
        · obtain ⟨hc1, hr1⟩ := (get_shifted_some_iff a m (-1, -1)).mp hs
          omega
      · rintro ⟨hinif, _⟩
        exact absurd hinif hini

/-- Witness for C3: the e2 pawn on the starting board generates e4, the
double step, because e2 is on White's starting rank and e4 is empty. -/
theorem get_pawn_moves_double_step_witness :
    (⟨4, 3⟩ : Address) ∈ get_pawn_moves Board.new ⟨4, 1⟩ Color.White ↔
      (pawn_is_initial_row Color.White ⟨4, 1⟩ ∧ Board.new.get_cell ⟨4, 3⟩ = none) :=
  get_pawn_moves_double_step Board.new ⟨4, 1⟩ Color.White ⟨4, 3⟩ (by decide)

/-! ### C4: vector (sliding) pieces -/

/-- `k`-fold application of `get_shifted` with a fixed offset: the square
reached after `k` steps of the ray walk, `none` once any step leaves the
board. -/
def iterShift (off : Int × Int) (a : Address) : Nat → Option Address
  | 0 => some a
  | k + 1 =>
    match iterShift off a k with
    | some x => x.get_shifted off
    | none => none

lemma iterShift_succ_left (off : Int × Int) (a : Address) (k : Nat) :
    iterShift off a (k + 1) =
      match a.get_shifted off with
      | some x => iterShift off x k
      | none => none := by
  induction k with
  | zero =>
    show (match iterShift off a 0 with
      | some x => x.get_shifted off
      | none => none) = _
    cases hsh : a.get_shifted off <;> simp [iterShift, hsh]
  | succ n ih =>
    show (match iterShift off a (n + 1) with
      | some x => x.get_shifted off
      | none => none) = _
    rw [ih]
    cases hsh : a.get_shifted off
    · rfl
    · rfl

lemma iterShift_coords (off : Int × Int) (a : Address) :
    ∀ (k : Nat) (m : Address), iterShift off a k = some m →
      ((m.col.val : Int) = (a.col.val : Int) + k * off.1 ∧
        (m.row.val : Int) = (a.row.val : Int) + k * off.2) := by
  intro k
  induction k with
  | zero =>
    intro m h
    injection h with h
    subst h
    simp
  | succ n ih =>
    intro m h
    have h2 : (match iterShift off a n with
      | some x => x.get_shifted off
      | none => none) = some m := h
    rcases hn : iterShift off a n with _ | x
    · rw [hn] at h2
      cases h2
    · rw [hn] at h2
      obtain ⟨hx1, hx2⟩ := ih x hn
      obtain ⟨hs1, hs2⟩ := (get_shifted_some_iff x m off).mp h2
      constructor
      · push_cast
        rw [add_mul, one_mul]
        linarith
      · push_cast
        rw [add_mul, one_mul]
        linarith

lemma iterShift_ne (off : Int × Int) (a m : Address) (k : Nat)
    (hoff : off ≠ (0, 0)) (hk : 1 ≤ k) (h : iterShift off a k = some m) :
    m ≠ a := by
  obtain ⟨h1, h2⟩ := iterShift_coords off a k m h
  intro he
  subst he
  have hz1 : (k : Int) * off.1 = 0 := by linarith
  have hz2 : (k : Int) * off.2 = 0 := by linarith
  have hk0 : (k : Int) ≠ 0 := by
    simp only [ne_eq, Nat.cast_eq_zero]
    omega
  rcases mul_eq_zero.mp hz1 with hbad | ho1
  · exact hk0 hbad
  rcases mul_eq_zero.mp hz2 with hbad | ho2
  · exact hk0 hbad
  exact hoff (Prod.ext_iff.mpr ⟨ho1, ho2⟩)

lemma iterShift_le_seven (off : Int × Int) (a m : Address) (k : Nat)
    (hoff : off ≠ (0, 0)) (h : iterShift off a k = some m) : k ≤ 7 := by
  obtain ⟨h1, h2⟩ := iterShift_coords off a k m h
  have hac := a.col.isLt
  have har := a.row.isLt
  have hmc := m.col.isLt
  have hmr := m.row.isLt
  by_cases hx : off.1 = 0
  · have hy : off.2 ≠ 0 := by
      intro hy
      exact hoff (Prod.ext_iff.mpr ⟨hx, hy⟩)
    have habs : (k : Int) ≤ |(k : Int) * off.2| := by
      rw [abs_mul, abs_of_nonneg (by positivity : (0 : Int) ≤ (k : Int))]
      calc (k : Int) = (k : Int) * 1 := (mul_one _).symm
        _ ≤ (k : Int) * |off.2| :=
          mul_le_mul_of_nonneg_left (Int.one_le_abs hy) (by positivity)
    have hbound : |(k : Int) * off.2| ≤ 7 := by
      rw [abs_le]
      constructor <;> omega
    have : (k : Int) ≤ 7 := le_trans habs hbound
    omega
  · have habs : (k : Int) ≤ |(k : Int) * off.1| := by
      rw [abs_mul, abs_of_nonneg (by positivity : (0 : Int) ≤ (k : Int))]
      calc (k : Int) = (k : Int) * 1 := (mul_one _).symm
        _ ≤ (k : Int) * |off.1| :=
          mul_le_mul_of_nonneg_left (Int.one_le_abs hx) (by positivity)
    have hbound : |(k : Int) * off.1| ≤ 7 := by
      rw [abs_le]
      constructor <;> omega
    have : (k : Int) ≤ 7 := le_trans habs hbound
    omega

lemma rayAux_none (b : Board) (c : Color) (off : Int × Int) :
    ∀ fuel : Nat, rayAux b c off fuel none = [] := by
  intro fuel
  cases fuel <;> rfl

/-- The stop condition of the ray walk at the square it emits: the square
is empty, or holds an enemy piece. -/
def ray_stop_ok (b : Board) (c : Color) (m : Address) : Prop :=
  b.get_cell m = none ∨ ∃ p, b.get_cell m = some p ∧ p.color ≠ c

lemma rayAux_mem_iff (b : Board) (c : Color) (off : Int × Int) :
    ∀ (fuel : Nat) (s m : Address),
      (m ∈ rayAux b c off fuel (some s) ↔
        ∃ k, k < fuel ∧ iterShift off s k = some m ∧
          (∀ j, j < k → ∃ x, iterShift off s j = some x ∧ b.get_cell x = none) ∧
          ray_stop_ok b c m) := by
  intro fuel
  induction fuel with
  | zero =>
    intro s m
    constructor
    · intro h
      exact absurd h (List.not_mem_nil m)
    · rintro ⟨k, hk, _⟩
      omega
  | succ n ih =>
    intro s m
    show (m ∈ match b.get_cell s with
      | some piece => if piece.color ≠ c then [s] else []
      | none => s :: rayAux b c off n (s.get_shifted off)) ↔ _
    rcases hcell : b.get_cell s with _ | p
    · simp only [hcell]
      rw [List.mem_cons]
      constructor
      · rintro (rfl | hmem)
        · exact ⟨0, by omega, rfl, fun j hj => absurd hj (by omega), Or.inl hcell⟩
        · rcases hsh : s.get_shifted off with _ | x
          · rw [hsh, rayAux_none] at hmem
            exact absurd hmem (List.not_mem_nil m)
          · rw [hsh] at hmem
            obtain ⟨k, hk, hit, hint, hstop⟩ := (ih x m).mp hmem
            refine ⟨k + 1, by omega, ?_, ?_, hstop⟩
            · rw [iterShift_succ_left, hsh]
              exact hit
            · intro j hj
              rcases j with _ | j2
              · exact ⟨s, rfl, hcell⟩
              · obtain ⟨y, hy, hcy⟩ := hint j2 (by omega)
                refine ⟨y, ?_, hcy⟩
                rw [iterShift_succ_left, hsh]
                exact hy
      · rintro ⟨k, hk, hit, hint, hstop⟩
        rcases k with _ | k2
        · injection hit with hit
          exact Or.inl hit.symm
        · right
          rw [iterShift_succ_left] at hit
          rcases hsh : s.get_shifted off with _ | x
          · rw [hsh] at hit
            cases hit
          · rw [hsh] at hit
            dsimp only at hit
            apply (ih x m).mpr
            refine ⟨k2, by omega, hit, ?_, hstop⟩
            intro j hj
            obtain ⟨y, hy, hcy⟩ := hint (j + 1) (by omega)
            rw [iterShift_succ_left, hsh] at hy
            exact ⟨y, hy, hcy⟩
    · simp only [hcell]
      by_cases hpc : p.color ≠ c
      · rw [if_pos hpc]
        rw [List.mem_singleton]
        constructor
        · rintro rfl
          exact ⟨0, by omega, rfl, fun j hj => absurd hj (by omega),
            Or.inr ⟨p, hcell, hpc⟩⟩
        · rintro ⟨k, hk, hit, hint, hstop⟩
          rcases k with _ | k2
          · injection hit with hit
            exact hit.symm
          · obtain ⟨y, hy, hcy⟩ := hint 0 (by omega)
            injection hy with hy
            subst hy
            rw [hcell] at hcy
            cases hcy
      · rw [if_neg hpc]
        constructor
        · intro hmem
          exact absurd hmem (List.not_mem_nil m)
        · rintro ⟨k, hk, hit, hint, hstop⟩
          rcases k with _ | k2
          · injection hit with hit
            subst hit
            rcases hstop with hnone | ⟨q, hq, hqc⟩
            · rw [hcell] at hnone
              cases hnone
            · rw [hcell] at hq
              injection hq with hq
              subst hq
              exact absurd hqc hpc
          · obtain ⟨y, hy, hcy⟩ := hint 0 (by omega)
            injection hy with hy
            subst hy
            rw [hcell] at hcy
            cases hcy

/-- The spec's description of a sliding ray: `m` is reached from `a` by
`k ≥ 1` applications of the direction offset, every strictly intermediate
square (after 1 to `k - 1` applications) stays on the board and is empty,
and `m` itself is empty or holds an enemy piece.  Walking off the board or
into an own piece emits nothing. -/
def vector_reachable (b : Board) (c : Color) (off : Int × Int) (a m : Address) : Prop :=
  ∃ k, 1 ≤ k ∧ iterShift off a k = some m ∧
    (∀ j, 1 ≤ j → j < k → ∃ x, iterShift off a j = some x ∧ b.get_cell x = none) ∧
    ray_stop_ok b c m

lemma ray_mem_iff (b : Board) (c : Color) (off : Int × Int) (a : Address)
    (hoff : off ≠ (0, 0)) (m : Address) :
    m ∈ rayAux b c off 8 (a.get_shifted off) ↔ vector_reachable b c off a m := by
  rcases hsh : a.get_shifted off with _ | s
  · rw [rayAux_none]
    constructor
    · intro hmem
      exact absurd hmem (List.not_mem_nil m)
    · rintro ⟨k, hk1, hit, _, _⟩
      rcases k with _ | j
      · omega
      · rw [iterShift_succ_left, hsh] at hit
        cases hit
  · rw [rayAux_mem_iff]
    constructor
    · rintro ⟨k, hk, hit, hint, hstop⟩
      refine ⟨k + 1, by omega, ?_, ?_, hstop⟩
      · rw [iterShift_succ_left, hsh]
        exact hit
      · intro j hj1 hjk
        rcases j with _ | j2
        · omega
        · obtain ⟨x, hx, hcx⟩ := hint j2 (by omega)
          refine ⟨x, ?_, hcx⟩
          rw [iterShift_succ_left, hsh]
          exact hx
    · rintro ⟨k, hk1, hit, hint, hstop⟩
      rcases k with _ | k2
      · omega
      · rw [iterShift_succ_left, hsh] at hit
        dsimp only at hit
        have hb := iterShift_le_seven off s m k2 hoff hit
        refine ⟨k2, by omega, hit, ?_, hstop⟩
        intro j hj
        obtain ⟨x, hx, hcx⟩ := hint (j + 1) (by omega) (by omega)
        rw [iterShift_succ_left, hsh] at hx
        dsimp only at hx
        exact ⟨x, hx, hcx⟩

/-- C4: bishop, rook and queen moves are the concatenation, over the
piece's fixed direction table (4 diagonals, 4 orthogonals, their 8-element
union), of the ray walks; and for every direction in those tables a square
is emitted by the walk exactly when it is reached by repeatedly applying
the direction's offset through empty on-board squares, ending on an empty
square or an enemy piece (stopping exclusively at the board edge or at an
own piece). -/
theorem vector_piece_moves_spec (b : Board) (a : Address) (c : Color) :
    get_bishop_moves b a c =
        BISHOP_MOVE_OFFSETS.flatMap (fun off => rayAux b c off 8 (a.get_shifted off)) ∧
    get_rook_moves b a c =
        ROOK_MOVE_OFFSETS.flatMap (fun off => rayAux b c off 8 (a.get_shifted off)) ∧
    get_queen_moves b a c =
        KING_QUEEN_MOVE_OFFSETS.flatMap (fun off => rayAux b c off 8 (a.get_shifted off)) ∧
    (∀ off ∈ KING_QUEEN_MOVE_OFFSETS,
        off ∈ BISHOP_MOVE_OFFSETS ∨ off ∈ ROOK_MOVE_OFFSETS) ∧
    (∀ off ∈ BISHOP_MOVE_OFFSETS, off ∈ KING_QUEEN_MOVE_OFFSETS) ∧
    (∀ off ∈ ROOK_MOVE_OFFSETS, off ∈ KING_QUEEN_MOVE_OFFSETS) ∧
    (∀ off ∈ KING_QUEEN_MOVE_OFFSETS, ∀ m : Address,
        m ∈ rayAux b c off 8 (a.get_shifted off) ↔ vector_reachable b c off a m) := by
  refine ⟨rfl, rfl, rfl, ?_, ?_, ?_, ?_⟩
  · intro off hoff
    fin_cases hoff <;> decide
  · intro off hoff
    fin_cases hoff <;> decide
  · intro off hoff
    fin_cases hoff <;> decide
  · intro off hoff m
    refine ray_mem_iff b c off a ?_ m
    fin_cases hoff <;> decide

/-- Witness for C4: on the starting board, the white queen-direction ray
(0, 1) from d4 emits d5 exactly per the reachability description. -/
theorem vector_piece_moves_spec_witness :
    ((0 : Int), (1 : Int)) ∈ KING_QUEEN_MOVE_OFFSETS ∧
    ((⟨3, 4⟩ : Address) ∈ rayAux Board.new Color.White (0, 1) 8
        ((⟨3, 3⟩ : Address).get_shifted (0, 1)) ↔
      vector_reachable Board.new Color.White (0, 1) ⟨3, 3⟩ ⟨3, 4⟩) :=
  ⟨by decide,
    (vector_piece_moves_spec Board.new ⟨3, 3⟩ Color.White).2.2.2.2.2.2 (0, 1)
      (by decide) ⟨3, 4⟩⟩

/-! ### C2: successful moves -/

lemma get_shifted_ne (a m : Address) (off : Int × Int) (hoff : off ≠ (0, 0))
    (h : a.get_shifted off = some m) : m ≠ a := by
  obtain ⟨h1, h2⟩ := (get_shifted_some_iff a m off).mp h
  intro he
  subst he
  have ho1 : off.1 = 0 := by omega
  have ho2 : off.2 = 0 := by omega
  exact hoff (Prod.ext_iff.mpr ⟨ho1, ho2⟩)

lemma rotate_by_color_ne (c : Color) (off : Int × Int) (hoff : off ≠ (0, 0)) :
    rotate_by_color c off ≠ (0, 0) := by
  cases c
  · exact hoff
  · intro he
    have h1 : -off.1 = 0 := congrArg Prod.fst he
    have h2 : -off.2 = 0 := congrArg Prod.snd he
    have o1 : off.1 = 0 := by omega
    have o2 : off.2 = 0 := by omega
    exact hoff (Prod.ext_iff.mpr ⟨o1, o2⟩)

lemma mem_scalar_part (b : Board) (c : Color) (m : Address) (o : Option Address) :
    (m ∈ match o with
      | some move_address =>
        (match b.get_cell move_address with
          | some piece => if piece.color ≠ c then [move_address] else []
          | none => [move_address])
      | none => ([] : List Address)) ↔
      (o = some m ∧ ray_stop_ok b c m) := by
  rcases o with _ | x
  · simp [ray_stop_ok]
  · simp only [Option.some.injEq]
    rcases hc : b.get_cell x with _ | p
    · simp only [hc, List.mem_singleton]
      constructor
      · rintro rfl
        exact ⟨rfl, Or.inl hc⟩
      · rintro ⟨rfl, _⟩
        rfl
    · simp only [hc]
      by_cases hpc : p.color ≠ c
      · rw [if_pos hpc]
        simp only [List.mem_singleton]
        constructor
        · rintro rfl
          exact ⟨rfl, Or.inr ⟨p, hc, hpc⟩⟩
        · rintro ⟨rfl, _⟩
          rfl
      · rw [if_neg hpc]
        constructor
        · intro hmem
          exact absurd hmem (List.not_mem_nil m)
        · rintro ⟨rfl, hnone | ⟨q, hq, hqc⟩⟩
          · rw [hnone] at hc
            cases hc
          · rw [hq] at hc
            injection hc with hc2
            subst hc2
            exact absurd hqc hpc

/-- Membership characterization of the scalar generator: an emitted square
is the single shift of one of the offsets, and is empty or enemy. -/
lemma mem_scalar_piece_moves (offs : List (Int × Int)) (b : Board) (a : Address)
    (c : Color) (m : Address) :
    m ∈ get_scalar_piece_moves offs b a c ↔
      ∃ off ∈ offs, a.get_shifted off = some m ∧ ray_stop_ok b c m := by
  unfold get_scalar_piece_moves
  rw [List.mem_flatMap]
  constructor
  · rintro ⟨off, hoff, hmem⟩
    rw [mem_scalar_part] at hmem
    exact ⟨off, hoff, hmem.1, hmem.2⟩
  · rintro ⟨off, hoff, hsh, hstop⟩
    exact ⟨off, hoff, (mem_scalar_part b c m (a.get_shifted off)).mpr ⟨hsh, hstop⟩⟩

lemma mem_get_pawn_moves_ne (b : Board) (a : Address) (c : Color) (m : Address)
    (hmem : m ∈ get_pawn_moves b a c) : m ≠ a := by
  unfold get_pawn_moves at hmem
  dsimp only at hmem
  rw [List.mem_append, List.mem_append] at hmem
  rcases hmem with (h0 | h1) | hcap
  · split at h0
    · rw [mem_pawn_quiet_part] at h0
      exact get_shifted_ne a m _ (rotate_by_color_ne c _ (by decide)) h0.1
    · exact absurd h0 (List.not_mem_nil m)
  · rw [mem_pawn_quiet_part] at h1
    exact get_shifted_ne a m _ (rotate_by_color_ne c _ (by decide)) h1.1
  · rw [List.mem_flatMap] at hcap
    obtain ⟨off, hoffmem, hx⟩ := hcap
    rw [mem_pawn_capture_part] at hx
    refine get_shifted_ne a m _ (rotate_by_color_ne c _ ?_) hx.1
    fin_cases hoffmem <;> decide

lemma mem_get_scalar_ne (offs : List (Int × Int)) (b : Board) (a : Address)
    (c : Color) (m : Address) (hz : ∀ off ∈ offs, off ≠ ((0 : Int), (0 : Int)))
    (hmem : m ∈ get_scalar_piece_moves offs b a c) : m ≠ a := by
  rw [mem_scalar_piece_moves] at hmem
  obtain ⟨off, hoff, hsh, _⟩ := hmem
  exact get_shifted_ne a m off (hz off hoff) hsh

lemma mem_get_vector_ne (offs : List (Int × Int)) (b : Board) (a : Address)
    (c : Color) (m : Address) (hz : ∀ off ∈ offs, off ≠ ((0 : Int), (0 : Int)))
    (hmem : m ∈ get_vector_piece_moves offs b a c) : m ≠ a := by
  unfold get_vector_piece_moves at hmem
  rw [List.mem_flatMap] at hmem
  obtain ⟨off, hoffmem, hx⟩ := hmem
  rw [ray_mem_iff b c off a (hz off hoffmem) m] at hx
  obtain ⟨k, hk1, hit, _, _⟩ := hx
  exact iterShift_ne off a m k (hz off hoffmem) hk1 hit

/-- Every square the generator emits differs from the source square. -/
lemma mem_get_piece_moves_ne (b : Board) (a : Address) (moves : List Address)
    (h : get_piece_moves b a = Except.ok moves) : ∀ m ∈ moves, m ≠ a := by
  unfold get_piece_moves at h
  rcases hcell : b.get_cell a with _ | p
  · rw [hcell] at h
    cases h
  · rw [hcell] at h
    injection h with h
    subst h
    intro m hm
    rcases hpt : p.piece_type
    all_goals rw [hpt] at hm
    · exact mem_get_pawn_moves_ne b a p.color m hm
    · exact mem_get_scalar_ne _ b a p.color m (by intro off ho; fin_cases ho <;> decide) hm
    · exact mem_get_vector_ne _ b a p.color m (by intro off ho; fin_cases ho <;> decide) hm
    · exact mem_get_vector_ne _ b a p.color m (by intro off ho; fin_cases ho <;> decide) hm
    · exact mem_get_vector_ne _ b a p.color m (by intro off ho; fin_cases ho <;> decide) hm
    · exact mem_get_scalar_ne _ b a p.color m (by intro off ho; fin_cases ho <;> decide) hm

lemma kill_piece_none {b : Board} {x : Address} (h : b.get_cell x = none) :
    b.kill_piece x = b := by
  unfold Board.kill_piece
  rw [h]

lemma kill_piece_some {b : Board} {x : Address} {p : Piece} (h : b.get_cell x = some p) :
    (b.kill_piece x).pieces = b.pieces.set (Board.get_index x) none ∧
    (b.kill_piece x).whose_turn = b.whose_turn ∧
    (b.kill_piece x).flip_board = b.flip_board ∧
    (p.color = Color.White →
      (b.kill_piece x).white_graveyard = b.white_graveyard ++ [p] ∧
      (b.kill_piece x).black_graveyard = b.black_graveyard) ∧
    (p.color = Color.Black →
      (b.kill_piece x).black_graveyard = b.black_graveyard ++ [p] ∧
      (b.kill_piece x).white_graveyard = b.white_graveyard) := by
  unfold Board.kill_piece
  rw [h]
  dsimp only
  by_cases hc : p.color = Color.White
  · rw [if_pos hc]
    refine ⟨rfl, rfl, rfl, fun _ => ⟨rfl, rfl⟩, fun hb => ?_⟩
    rw [hb] at hc
    cases hc
  · rw [if_neg hc]
    exact ⟨rfl, rfl, rfl, fun hw => absurd hw hc, fun _ => ⟨rfl, rfl⟩⟩

/-- Either `make_move` succeeds — the destination is among the generated
moves and the result board is `move_piece` followed by `flip_player` — or
it returns an error. -/
lemma make_move_shape (b : Board) (frm dst : Address) :
    ((make_move b frm dst).2 = none ∧
      (∃ moves, get_piece_moves b frm = Except.ok moves ∧ dst ∈ moves) ∧
      (make_move b frm dst).1 = (b.move_piece frm dst).flip_player) ∨
    (make_move b frm dst).2 ≠ none := by
  unfold make_move
  dsimp only
  split
  · right
    simp
  · split
    · right
      simp
    · next moves heq =>
      split
      · next hin => exact Or.inl ⟨rfl, ⟨moves, heq, hin⟩, rfl⟩
      · right
        simp

/-- C2: when `make_move` succeeds, the source square becomes empty, the
destination holds the piece that was at the source, `whose_turn` flips to
the other color, every other square is unchanged, `flip_board` is
unchanged, and exactly the piece previously at the destination (if any) is
appended to the graveyard of its own color, the other graveyard staying
unchanged.  (`hlen` is the `[Option<Piece>; 64]` array-length invariant of
the Rust `Board`.) -/
theorem make_move_success_spec (b : Board) (frm dst : Address)
    (hlen : b.pieces.length = 64)
    (hok : (make_move b frm dst).2 = none) :
    ((make_move b frm dst).1.get_cell frm = none) ∧
    ((make_move b frm dst).1.get_cell dst = b.get_cell frm) ∧
    ((make_move b frm dst).1.whose_turn ≠ b.whose_turn) ∧
    ((make_move b frm dst).1.flip_board = b.flip_board) ∧
    (∀ x : Address, x ≠ frm → x ≠ dst →
      (make_move b frm dst).1.get_cell x = b.get_cell x) ∧
    (b.get_cell dst = none →
      (make_move b frm dst).1.white_graveyard = b.white_graveyard ∧
      (make_move b frm dst).1.black_graveyard = b.black_graveyard) ∧
    (∀ p, b.get_cell dst = some p →
      (p.color = Color.White →
        (make_move b frm dst).1.white_graveyard = b.white_graveyard ++ [p] ∧
        (make_move b frm dst).1.black_graveyard = b.black_graveyard) ∧
      (p.color = Color.Black →
        (make_move b frm dst).1.black_graveyard = b.black_graveyard ++ [p] ∧
        (make_move b frm dst).1.white_graveyard = b.white_graveyard)) := by
  rcases make_move_shape b frm dst with ⟨_, ⟨moves, hgp, hin⟩, hb⟩ | hbad
  · rw [hb]
    have hne : dst ≠ frm := mem_get_piece_moves_ne b frm moves hgp dst hin
    have hfrmcell : ∃ pc, b.get_cell frm = some pc := by
      unfold get_piece_moves at hgp
      rcases hc : b.get_cell frm with _ | pc
      · rw [hc] at hgp
        cases hgp
      · exact ⟨pc, rfl⟩
    obtain ⟨pc, hfrmcell⟩ := hfrmcell
    have hij : Board.get_index frm ≠ Board.get_index dst :=
      fun he => hne (get_index_inj he).symm
    rcases hdst : b.get_cell dst with _ | p
    · have hk : b.kill_piece dst = b := kill_piece_none hdst
      have hpieces : (b.move_piece frm dst).pieces =
          (b.pieces.set (Board.get_index dst)
            (b.pieces.getD (Board.get_index frm) none)).set
              (Board.get_index frm) none := by
        unfold Board.move_piece
        rw [hk]
      have hwtp : (b.move_piece frm dst).whose_turn = b.whose_turn := by
        unfold Board.move_piece
        dsimp only
        rw [hk]
      have hfbp : (b.move_piece frm dst).flip_board = b.flip_board := by
        unfold Board.move_piece
        dsimp only
        rw [hk]
      have hwg : (b.move_piece frm dst).white_graveyard = b.white_graveyard := by
        unfold Board.move_piece
        dsimp only
        rw [hk]
      have hbg : (b.move_piece frm dst).black_graveyard = b.black_graveyard := by
        unfold Board.move_piece
        dsimp only
        rw [hk]
      refine ⟨?_, ?_, ?_, ?_, ?_, ?_, ?_⟩
      · show (b.move_piece frm dst).pieces.getD (Board.get_index frm) none = none
        rw [hpieces]
        refine list_getD_set_self _ _ _ _ ?_
        rw [List.length_set, hlen]
        exact get_index_lt frm
      · show (b.move_piece frm dst).pieces.getD (Board.get_index dst) none = b.get_cell frm
        rw [hpieces, list_getD_set_ne _ _ _ _ _ hij,
          list_getD_set_self _ _ _ _ (by rw [hlen]; exact get_index_lt dst)]
        rfl
      · show (if (b.move_piece frm dst).whose_turn = Color.White
            then Color.Black else Color.White) ≠ b.whose_turn
        rw [hwtp]
        cases hwtb : b.whose_turn <;> simp
      · show (b.move_piece frm dst).flip_board = b.flip_board
        exact hfbp
      · intro x hxf hxd
        show (b.move_piece frm dst).pieces.getD (Board.get_index x) none = b.get_cell x
        have hxf2 : Board.get_index frm ≠ Board.get_index x :=
          fun he => hxf (get_index_inj he).symm
        have hxd2 : Board.get_index dst ≠ Board.get_index x :=
          fun he => hxd (get_index_inj he).symm
        rw [hpieces, list_getD_set_ne _ _ _ _ _ hxf2, list_getD_set_ne _ _ _ _ _ hxd2]
        rfl
      · intro _
        exact ⟨hwg, hbg⟩
      · intro p2 hp2
        cases hp2
    · obtain ⟨hkp, hkw, hkf, hkwg, hkbg⟩ := kill_piece_some hdst
      have hgetfrm : (b.kill_piece dst).pieces.getD (Board.get_index frm) none = some pc := by
        rw [hkp, list_getD_set_ne _ _ _ _ _ (Ne.symm hij)]
        exact hfrmcell
      have hpieces : (b.move_piece frm dst).pieces =
          (((b.kill_piece dst).pieces.set (Board.get_index dst) (some pc)).set
            (Board.get_index frm) none) := by
        unfold Board.move_piece
        dsimp only
        rw [hgetfrm]
      have hklen : (b.kill_piece dst).pieces.length = 64 := by
        rw [hkp, List.length_set, hlen]
      have hwtp : (b.move_piece frm dst).whose_turn = b.whose_turn := by
        unfold Board.move_piece
        dsimp only
        rw [hkw]
      have hfbp : (b.move_piece frm dst).flip_board = b.flip_board := by
        unfold Board.move_piece
        dsimp only
        rw [hkf]
      have hwg : (b.move_piece frm dst).white_graveyard =
          (b.kill_piece dst).white_graveyard := rfl
      have hbg : (b.move_piece frm dst).black_graveyard =
          (b.kill_piece dst).black_graveyard := rfl
      refine ⟨?_, ?_, ?_, ?_, ?_, ?_, ?_⟩
      · show (b.move_piece frm dst).pieces.getD (Board.get_index frm) none = none
        rw [hpieces]
        refine list_getD_set_self _ _ _ _ ?_
        rw [List.length_set, hklen]
        exact get_index_lt frm
      · show (b.move_piece frm dst).pieces.getD (Board.get_index dst) none = b.get_cell frm
        rw [hpieces, list_getD_set_ne _ _ _ _ _ hij,
          list_getD_set_self _ _ _ _ (by rw [hklen]; exact get_index_lt dst), hfrmcell]
      · show (if (b.move_piece frm dst).whose_turn = Color.White
            then Color.Black else Color.White) ≠ b.whose_turn
        rw [hwtp]
        cases hwtb : b.whose_turn <;> simp
      · show (b.move_piece frm dst).flip_board = b.flip_board
        exact hfbp
      · intro x hxf hxd
        show (b.move_piece frm dst).pieces.getD (Board.get_index x) none = b.get_cell x
        have hxf2 : Board.get_index frm ≠ Board.get_index x :=
          fun he => hxf (get_index_inj he).symm
        have hxd2 : Board.get_index dst ≠ Board.get_index x :=
          fun he => hxd (get_index_inj he).symm
        rw [hpieces, list_getD_set_ne _ _ _ _ _ hxf2, list_getD_set_ne _ _ _ _ _ hxd2,
          hkp, list_getD_set_ne _ _ _ _ _ hxd2]
        rfl
      · intro h0
        cases h0
      · intro p2 hp2
        injection hp2 with hp2
        subst hp2
        constructor
        · intro hw
          obtain ⟨hw1, hw2⟩ := hkwg hw
          constructor
          · show (b.move_piece frm dst).white_graveyard = b.white_graveyard ++ [p]
            rw [hwg, hw1]
          · show (b.move_piece frm dst).black_graveyard = b.black_graveyard
            rw [hbg, hw2]
        · intro hb2
          obtain ⟨hb3, hb4⟩ := hkbg hb2
          constructor
          · show (b.move_piece frm dst).black_graveyard = b.black_graveyard ++ [p]
            rw [hbg, hb3]
          · show (b.move_piece frm dst).white_graveyard = b.white_graveyard
            rw [hwg, hb4]
  · exact absurd hok hbad

/-- Witness for C2: applying e2→e4 on the starting board empties e2, puts
the pawn on e4, flips the turn, changes nothing else, and (e4 having been
empty) leaves both graveyards unchanged. -/
theorem make_move_success_spec_witness :
    ((make_move Board.new ⟨4, 1⟩ ⟨4, 3⟩).1.get_cell ⟨4, 1⟩ = none) ∧
    ((make_move Board.new ⟨4, 1⟩ ⟨4, 3⟩).1.get_cell ⟨4, 3⟩ = Board.new.get_cell ⟨4, 1⟩) ∧
    ((make_move Board.new ⟨4, 1⟩ ⟨4, 3⟩).1.whose_turn ≠ Board.new.whose_turn) ∧
    ((make_move Board.new ⟨4, 1⟩ ⟨4, 3⟩).1.flip_board = Board.new.flip_board) ∧
    (∀ x : Address, x ≠ ⟨4, 1⟩ → x ≠ ⟨4, 3⟩ →
      (make_move Board.new ⟨4, 1⟩ ⟨4, 3⟩).1.get_cell x = Board.new.get_cell x) ∧
    (Board.new.get_cell ⟨4, 3⟩ = none →
      (make_move Board.new ⟨4, 1⟩ ⟨4, 3⟩).1.white_graveyard = Board.new.white_graveyard ∧
      (make_move Board.new ⟨4, 1⟩ ⟨4, 3⟩).1.black_graveyard = Board.new.black_graveyard) ∧
    (∀ p, Board.new.get_cell ⟨4, 3⟩ = some p →
      (p.color = Color.White →
        (make_move Board.new ⟨4, 1⟩ ⟨4, 3⟩).1.white_graveyard =
          Board.new.white_graveyard ++ [p] ∧
        (make_move Board.new ⟨4, 1⟩ ⟨4, 3⟩).1.black_graveyard =
          Board.new.black_graveyard) ∧
      (p.color = Color.Black →
        (make_move Board.new ⟨4, 1⟩ ⟨4, 3⟩).1.black_graveyard =
          Board.new.black_graveyard ++ [p] ∧
        (make_move Board.new ⟨4, 1⟩ ⟨4, 3⟩).1.white_graveyard =
          Board.new.white_graveyard)) :=
  make_move_success_spec Board.new ⟨4, 1⟩ ⟨4, 3⟩ rfl (by decide)

/-! ### C8: batch application -/

/-- One iteration of the `make_moves` loop: parse both coordinates (each
parse failure wrapped as `InvalidAddress`), then `make_move`. -/
def move_step (b : Board) (m : String × String) : Board × Option MoveError :=
  match Address.from_str m.1 with
  | Except.error e => (b, some (MoveError.InvalidAddress e))
  | Except.ok frm =>
    match Address.from_str m.2 with
    | Except.error e => (b, some (MoveError.InvalidAddress e))
    | Except.ok dst => make_move b frm dst

lemma make_moves_cons (b : Board) (m : String × String)
    (rest : List (String × String)) :
    make_moves b (m :: rest) =
      match move_step b m with
      | (b2, some e) => (b2, some e)
      | (b2, none) => make_moves b2 rest := by
  unfold make_moves move_step
  rcases h1 : Address.from_str m.1 with e | frm
  · rfl
  · rcases h2 : Address.from_str m.2 with e | dst
    · rfl
    · rcases h3 : make_move b frm dst with ⟨b2, _ | e⟩
      · dsimp only
        rw [h3]
        cases rest <;> rfl
      · dsimp only
        rw [h3]

lemma move_step_cases (b : Board) (m : String × String) :
    (move_step b m).2 = none ∨ (move_step b m).1 = b := by
  unfold move_step
  rcases h1 : Address.from_str m.1 with e | frm
  · right
    rfl
  · rcases h2 : Address.from_str m.2 with e | dst
    · right
      rfl
    · exact make_move_cases b frm dst

/-- The board after applying the first `n` pairs of the batch (each via
`move_step`, which is the identity on the board when the step fails). -/
def applyMovesBoard (b : Board) (ms : List (String × String)) (n : Nat) : Board :=
  (ms.take n).foldl (fun bb m => (move_step bb m).1) b

/-- C8: `make_moves` applies the pairs in order and stops at the first
parse or move failure: there is a prefix length `k` such that the first
`k` steps all succeed, and either `k` covers the whole list and
`make_moves` returns the fully applied board with no error, or step `k`
fails and `make_moves` returns the board with exactly the first `k` moves
applied (no rollback) together with that step's error. -/
theorem make_moves_first_failure (b : Board) (ms : List (String × String)) :
    ∃ k, k ≤ ms.length ∧
      (∀ i, i < k → (move_step (applyMovesBoard b ms i) (ms.getD i ("", ""))).2 = none) ∧
      ((k = ms.length ∧ make_moves b ms = (applyMovesBoard b ms k, none)) ∨
        (k < ms.length ∧
          (move_step (applyMovesBoard b ms k) (ms.getD k ("", ""))).2 ≠ none ∧
          make_moves b ms =
            (applyMovesBoard b ms k,
              (move_step (applyMovesBoard b ms k) (ms.getD k ("", ""))).2))) := by
  induction ms generalizing b with
  | nil =>
    exact ⟨0, Nat.le_refl 0, fun i hi => absurd hi (by omega), Or.inl ⟨rfl, rfl⟩⟩
  | cons m rest ih =>
    rcases hstep : (move_step b m).2 with _ | e
    · have hsp : move_step b m = ((move_step b m).1, none) := Prod.ext rfl hstep
      obtain ⟨k, hk, hsucc, hres⟩ := ih ((move_step b m).1)
      refine ⟨k + 1, by simp only [List.length_cons]; omega, ?_, ?_⟩
      · intro i hi
        rcases i with _ | i2
        · exact hstep
        · exact hsucc i2 (by omega)
      · rcases hres with ⟨hkl, hmk⟩ | ⟨hkl, hner, hmk⟩
        · left
          constructor
          · simp only [List.length_cons]
            omega
          · rw [make_moves_cons, hsp]
            exact hmk
        · right
          refine ⟨by simp only [List.length_cons]; omega, hner, ?_⟩
          rw [make_moves_cons, hsp]
          exact hmk
    · have hsp : move_step b m = ((move_step b m).1, some e) := Prod.ext rfl hstep
      have hbb : (move_step b m).1 = b := by
        rcases move_step_cases b m with h2 | h2
        · rw [hstep] at h2
          cases h2
        · exact h2
      refine ⟨0, by omega, fun i hi => absurd hi (by omega),
        Or.inr ⟨by simp only [List.length_cons]; omega, ?_, ?_⟩⟩
      · show (move_step b m).2 ≠ none
        rw [hstep]
        simp
      · rw [make_moves_cons, hsp]
        show ((move_step b m).1, some e) = (b, (move_step b m).2)
        rw [hbb, hstep]
